import Mathlib

/-!
Shallow embedding of the native I/O bridge
(luni/src/main/native/org_apache_harmony_luni_platform_OSFileSystem.cpp):
the vector builder initIoVec and the three entry points readv, writev and
transfer.  The JNI environment and the kernel are the environment of the
code: allocation success, array pinning results, the resolved socket
descriptor, and the syscall result together with the errno observed right
after it, are explicit inputs.  Exceptions raised through the JNI helpers
are recorded in the outcome, together with whether the syscall was reached.
-/

/-- Two's-complement wrap of an integer into the signed 32-bit range,
the arithmetic performed on jint values. -/
def toInt32 (n : Int) : Int := (n + 2 ^ 31) % 2 ^ 32 - 2 ^ 31

/-- Two's-complement wrap of an integer into the signed range of a
platform integer type of width w, modelling conversion to that type. -/
def toIntW (w : Nat) (n : Int) : Int :=
  (n + 2 ^ (w - 1)) % 2 ^ w - 2 ^ (w - 1)

/-- One entry of the native vector list: struct iovec.  The base pointer is
the numeric address stored into iov_base; iov_len records the jint value
assigned to it. -/
structure IoVec where
  iov_base : Int
  iov_len : Int
  deriving DecidableEq

/-- A pending JNI failure: jniThrowOutOfMemoryError, an exception already
raised by a failed array access (ScopedIntArrayRO), or
jniThrowIOException carrying an OS error code. -/
inductive JniFailure where
  | outOfMemory
  | arrayAccess
  | ioError (err : Int)
  deriving DecidableEq

/-- The environment initIoVec runs in: whether new iovec[size] succeeds,
and the contents of the three pinned int arrays, none when the
ScopedIntArrayRO access fails (with its exception pending). -/
structure InitEnv where
  allocOk : Bool
  buffers : Option (List Int)
  offsets : Option (List Int)
  lengths : Option (List Int)

/-- Embedding of initIoVec: translate three Java int arrays to a native
iovec list.  Allocation failure raises out-of-memory; a failed array
access returns with that failure pending; otherwise entry i holds
base buffers[i] + offsets[i] (jint addition, hence the 32-bit wrap)
and length lengths[i]. -/
def initIoVec (e : InitEnv) (size : Nat) : Except JniFailure (List IoVec) :=
  if !e.allocOk then .error .outOfMemory
  else
    match e.buffers with
    | none => .error .arrayAccess
    | some bufs =>
      match e.offsets with
      | none => .error .arrayAccess
      | some offs =>
        match e.lengths with
        | none => .error .arrayAccess
        | some lens =>
          .ok ((List.range size).map fun i =>
            { iov_base := toInt32 (bufs.getD i 0 + offs.getD i 0),
              iov_len := lens.getD i 0 })

/-- Result and errno of the one syscall a call performs, as the kernel
would deliver them. -/
structure SyscallEnv where
  result : Int
  err : Int

/-- Outcome of readv or writev: the jlong return value, the failure
raised (if any), and whether the read/write syscall was invoked. -/
structure Outcome where
  ret : Int
  raised : Option JniFailure
  syscallMade : Bool
  deriving DecidableEq

/-- Embedding of OSFileSystem_readv: build the vector list; on failure
return -1.  A zero syscall result is returned as -1; a -1 result raises
an IOException carrying errno and is returned as is; any other result
is returned unchanged. -/
def OSFileSystem_readv (e : InitEnv) (size : Nat) (sys : SyscallEnv) : Outcome :=
  match initIoVec e size with
  | .error f => { ret := -1, raised := some f, syscallMade := false }
  | .ok _ =>
    if sys.result = 0 then
      { ret := -1, raised := none, syscallMade := true }
    else if sys.result = -1 then
      { ret := sys.result, raised := some (.ioError sys.err), syscallMade := true }
    else
      { ret := sys.result, raised := none, syscallMade := true }

/-- Embedding of OSFileSystem_writev: build the vector list; on failure
return -1.  A -1 syscall result raises an IOException carrying errno;
the syscall result is returned unchanged in every case. -/
def OSFileSystem_writev (e : InitEnv) (size : Nat) (sys : SyscallEnv) : Outcome :=
  match initIoVec e size with
  | .error f => { ret := -1, raised := some f, syscallMade := false }
  | .ok _ =>
    if sys.result = -1 then
      { ret := sys.result, raised := some (.ioError sys.err), syscallMade := true }
    else
      { ret := sys.result, raised := none, syscallMade := true }

/-- Outcome of transfer: return value, failure raised, whether sendfile
was invoked, and the off_t value handed to it. -/
structure TransferOutcome where
  ret : Int
  raised : Option JniFailure
  syscallMade : Bool
  offPassed : Option Int
  deriving DecidableEq

/-- Embedding of OSFileSystem_transfer.  socket is the descriptor
jniGetFDFromFileDescriptor resolved from the FileDescriptor object, -1
when it could not be resolved; offW is the bit width of the platform
off_t type the jlong offset is converted to.  An unresolved socket
returns -1 at once; otherwise sendfile runs, a -1 result raises an
IOException carrying errno, and the result is returned unchanged. -/
def OSFileSystem_transfer (offW : Nat) (socket : Int) (offset count : Int)
    (sys : SyscallEnv) : TransferOutcome :=
  if socket = -1 then
    { ret := -1, raised := none, syscallMade := false, offPassed := none }
  else
    let off := toIntW offW offset
    { ret := sys.result,
      raised := if sys.result = -1 then some (.ioError sys.err) else none,
      syscallMade := true,
      offPassed := some off }

/-- Modelled from the spec: the addresses covered by one iovec entry, in
order — the contiguous range of iov_len bytes starting at iov_base
("a single syscall reading/writing multiple discontiguous buffers"). -/
def region (v : IoVec) : List Int :=
  (List.range v.iov_len.toNat).map fun j => v.iov_base + j

/-- Modelled from the spec: all addresses a vector list covers, in entry
order. -/
def iovAddrs (vs : List IoVec) : List Int := (vs.map region).flatten

/-- Modelled from the spec: POSIX gather semantics — the byte sequence a
scatter-write collects from memory, walking the vector list in order. -/
def gatherBytes (mem : Int → Int) (vs : List IoVec) : List Int :=
  (iovAddrs vs).map mem

/-- Store a list of byte values at a list of addresses, sequentially. -/
def storeSeq : (Int → Int) → List Int → List Int → Int → Int
  | mem, a :: as, d :: ds => storeSeq (fun x => if x = a then d else mem x) as ds
  | mem, _, _ => mem

/-- Modelled from the spec: POSIX scatter semantics — a gather-read
delivers the bytes read into the regions of the vector list in order. -/
def scatterBytes (mem : Int → Int) (vs : List IoVec) (data : List Int) : Int → Int :=
  storeSeq mem (iovAddrs vs) data

theorem storeSeq_of_not_mem (mem : Int → Int) (as ds : List Int) (x : Int)
    (hx : x ∉ as) : storeSeq mem as ds x = mem x := by
  induction as generalizing mem ds with
  | nil => cases ds <;> rfl
  | cons a tl ih =>
    cases ds with
    | nil => rfl
    | cons d dtl =>
      have hxa : x ≠ a := fun h => hx (h ▸ List.mem_cons_self a tl)
      have hxtl : x ∉ tl := fun h => hx (List.mem_cons_of_mem a h)
      simp only [storeSeq]
      rw [ih _ _ hxtl]
      simp [hxa]

theorem map_storeSeq (mem : Int → Int) (as ds : List Int)
    (hnd : as.Nodup) (hlen : ds.length = as.length) :
    as.map (storeSeq mem as ds) = ds := by
  induction as generalizing mem ds with
  | nil =>
    have : ds = [] := List.length_eq_zero.mp hlen
    simp [this]
  | cons a tl ih =>
    cases ds with
    | nil => simp at hlen
    | cons d dtl =>
      rw [List.nodup_cons] at hnd
      simp only [List.map_cons, storeSeq]
      have h1 : storeSeq (fun x => if x = a then d else mem x) tl dtl a = d := by
        rw [storeSeq_of_not_mem _ _ _ _ hnd.1]
        simp
      have h2 : tl.map (storeSeq (fun x => if x = a then d else mem x) tl dtl) = dtl :=
        ih _ _ hnd.2 (by simpa using hlen)
      rw [h1, h2]

theorem toInt32_eq_self (n : Int) (hlo : -(2 ^ 31) ≤ n) (hhi : n < 2 ^ 31) :
    toInt32 n = n := by
  have h31 : (2 : Int) ^ 31 = 2147483648 := by norm_num
  have h32 : (2 : Int) ^ 32 = 4294967296 := by norm_num
  unfold toInt32
  rw [h31, h32]
  rw [h31] at hlo hhi
  omega

theorem initIoVec_ok_eq (bufs offs lens : List Int) (size : Nat) (vs : List IoVec)
    (hok : initIoVec ⟨true, some bufs, some offs, some lens⟩ size = .ok vs) :
    vs = (List.range size).map fun i =>
      { iov_base := toInt32 (bufs.getD i 0 + offs.getD i 0),
        iov_len := lens.getD i 0 } := by
  have h : initIoVec ⟨true, some bufs, some offs, some lens⟩ size =
      .ok ((List.range size).map fun i =>
        { iov_base := toInt32 (bufs.getD i 0 + offs.getD i 0),
          iov_len := lens.getD i 0 }) := rfl
  rw [h] at hok
  exact (Except.ok.inj hok).symm

/-- Claim C1: when the readv syscall reports end-of-stream (result 0),
OSFileSystem_readv returns -1; and the return value of OSFileSystem_readv
is never 0 on any path. -/
theorem readv_eof_neg_one_never_zero (e : InitEnv) (size : Nat) (sys : SyscallEnv)
    (heof : sys.result = 0) :
    (OSFileSystem_readv e size sys).ret = -1 ∧
    ∀ s2 : SyscallEnv, (OSFileSystem_readv e size s2).ret ≠ 0 := by
  constructor
  · unfold OSFileSystem_readv
    cases h : initIoVec e size <;> simp [heof]
  · intro s2
    unfold OSFileSystem_readv
    cases h : initIoVec e size
    · simp
    · by_cases h0 : s2.result = 0 <;> by_cases h1 : s2.result = -1 <;>
        simp [h0, h1]

theorem readv_eof_neg_one_never_zero_witness :
    (OSFileSystem_readv ⟨true, some [0], some [0], some [4]⟩ 1 ⟨0, 0⟩).ret = -1 :=
  (readv_eof_neg_one_never_zero ⟨true, some [0], some [0], some [4]⟩ 1 ⟨0, 0⟩ rfl).1

/-- Claim C2: whenever the vector list was built and the syscall obeys the
POSIX contract (result -1 or a nonnegative count), a negative result makes
readv, writev and transfer raise an IOException carrying exactly the errno
observed after the syscall, and a nonnegative result raises nothing. -/
theorem syscall_negative_raises_errno (e : InitEnv) (size : Nat) (sys : SyscallEnv)
    (offW : Nat) (socket offset cnt : Int) (vs : List IoVec)
    (hok : initIoVec e size = .ok vs)
    (hval : sys.result = -1 ∨ 0 ≤ sys.result)
    (hsock : socket ≠ -1) :
    (sys.result < 0 →
      (OSFileSystem_readv e size sys).raised = some (.ioError sys.err) ∧
      (OSFileSystem_writev e size sys).raised = some (.ioError sys.err) ∧
      (OSFileSystem_transfer offW socket offset cnt sys).raised = some (.ioError sys.err)) ∧
    (0 ≤ sys.result →
      (OSFileSystem_readv e size sys).raised = none ∧
      (OSFileSystem_writev e size sys).raised = none ∧
      (OSFileSystem_transfer offW socket offset cnt sys).raised = none) := by
  rcases hval with h | h
  · refine ⟨fun _ => ?_, fun h0 => absurd h0 (by omega)⟩
    refine ⟨?_, ?_, ?_⟩ <;>
      simp [OSFileSystem_readv, OSFileSystem_writev, OSFileSystem_transfer,
        hok, h, hsock]
  · have hne : sys.result ≠ -1 := by omega
    refine ⟨fun hneg => absurd h (by omega), fun _ => ?_⟩
    refine ⟨?_, ?_, ?_⟩
    · simp only [OSFileSystem_readv, hok]
      by_cases h0 : sys.result = 0 <;> simp [h0, hne]
    · simp [OSFileSystem_writev, hok, hne]
    · simp [OSFileSystem_transfer, hsock, hne]

theorem syscall_negative_raises_errno_witness :
    (OSFileSystem_readv ⟨true, some [0], some [0], some [4]⟩ 1 ⟨-1, 9⟩).raised =
      some (.ioError 9) := by
  have h := syscall_negative_raises_errno ⟨true, some [0], some [0], some [4]⟩ 1
    ⟨-1, 9⟩ 64 5 0 4 [⟨0, 4⟩] rfl (Or.inl rfl) (by norm_num)
  exact (h.1 (by norm_num)).1

/-- Claim C3: an unresolvable destination socket handle (descriptor -1)
makes transfer return -1 at once, raising nothing and never invoking the
sendfile syscall. -/
theorem transfer_unresolved_socket (offW : Nat) (socket offset cnt : Int)
    (sys : SyscallEnv) (hsock : socket = -1) :
    OSFileSystem_transfer offW socket offset cnt sys =
      { ret := -1, raised := none, syscallMade := false, offPassed := none } := by
  simp [OSFileSystem_transfer, hsock]

theorem transfer_unresolved_socket_witness :
    OSFileSystem_transfer 64 (-1) 5 3 ⟨7, 2⟩ =
      { ret := -1, raised := none, syscallMade := false, offPassed := none } :=
  transfer_unresolved_socket 64 (-1) 5 3 ⟨7, 2⟩ rfl

/-- Claim C4: once the vector list is built, writev returns every
nonnegative syscall byte count unchanged and raises nothing; in
particular a zero count (as the syscall reports for count = 0) is
returned as 0 with no special-casing. -/
theorem writev_nonneg_passthrough (e : InitEnv) (size : Nat) (sys : SyscallEnv)
    (vs : List IoVec) (hok : initIoVec e size = .ok vs) (hres : 0 ≤ sys.result) :
    OSFileSystem_writev e size sys =
      { ret := sys.result, raised := none, syscallMade := true } := by
  have hne : sys.result ≠ -1 := by omega
  simp [OSFileSystem_writev, hok, hne]

theorem writev_nonneg_passthrough_witness :
    OSFileSystem_writev ⟨true, some [], some [], some []⟩ 0 ⟨0, 3⟩ =
      { ret := 0, raised := none, syscallMade := true } :=
  writev_nonneg_passthrough ⟨true, some [], some [], some []⟩ 0 ⟨0, 3⟩ [] rfl
    (by norm_num)

/-- Claim C5: the bytes a writev gathers from the buffers through the
vector list built by initIoVec, when scattered back by a readv of the same
byte range with the same vector shape into fresh memory, are delivered
exactly and in the original order (the regions being disjoint). -/
theorem readv_writev_roundtrip (membuf memdst : Int → Int)
    (bufs offs lens : List Int) (size : Nat) (vs : List IoVec)
    (hok : initIoVec ⟨true, some bufs, some offs, some lens⟩ size = .ok vs)
    (hnd : (iovAddrs vs).Nodup) :
    gatherBytes (scatterBytes memdst vs (gatherBytes membuf vs)) vs =
      gatherBytes membuf vs := by
  unfold gatherBytes scatterBytes
  exact map_storeSeq memdst (iovAddrs vs) ((iovAddrs vs).map membuf) hnd
    (by simp)

theorem readv_writev_roundtrip_witness :
    gatherBytes (scatterBytes (fun _ => 0) [⟨0, 3⟩, ⟨100, 5⟩]
        (gatherBytes (fun a => a) [⟨0, 3⟩, ⟨100, 5⟩])) [⟨0, 3⟩, ⟨100, 5⟩] =
      gatherBytes (fun a => a) [⟨0, 3⟩, ⟨100, 5⟩] :=
  readv_writev_roundtrip (fun a => a) (fun _ => 0) [0, 100] [0, 0] [3, 5] 2
    [⟨0, 3⟩, ⟨100, 5⟩] rfl (by decide)

/-- Claim C6: whenever building the vector list fails — allocation failure,
signalled as out-of-memory, or an inaccessible input array, whose failure
is propagated — readv and writev return -1 with that failure raised and
never invoke the read or write syscall. -/
theorem initIoVec_failure_no_syscall (e : InitEnv) (size : Nat) (sys : SyscallEnv)
    (hfail : e.allocOk = false ∨ e.buffers = none ∨ e.offsets = none ∨
      e.lengths = none) :
    ∃ f : JniFailure,
      initIoVec e size = .error f ∧
      (e.allocOk = false → f = .outOfMemory) ∧
      (e.allocOk = true → f = .arrayAccess) ∧
      OSFileSystem_readv e size sys = { ret := -1, raised := some f, syscallMade := false } ∧
      OSFileSystem_writev e size sys = { ret := -1, raised := some f, syscallMade := false } := by
  obtain ⟨a, b, o, l⟩ := e
  cases a with
  | false =>
    refine ⟨.outOfMemory, rfl, fun _ => rfl, fun h => by simp at h, ?_, ?_⟩ <;>
      simp [OSFileSystem_readv, OSFileSystem_writev, initIoVec]
  | true =>
    have hb : b = none ∨ o = none ∨ l = none := by
      rcases hfail with h | h
      · simp at h
      · exact h
    have hinit : initIoVec ⟨true, b, o, l⟩ size = .error .arrayAccess := by
      cases b with
      | none => rfl
      | some bs =>
        cases o with
        | none => rfl
        | some os =>
          cases l with
          | none => rfl
          | some ls => simp at hb
    refine ⟨.arrayAccess, hinit, fun h => by simp at h, fun _ => rfl, ?_, ?_⟩ <;>
      simp [OSFileSystem_readv, OSFileSystem_writev, hinit]

theorem initIoVec_failure_no_syscall_witness :
    OSFileSystem_readv ⟨true, none, some [0], some [4]⟩ 1 ⟨5, 9⟩ =
      { ret := -1, raised := some .arrayAccess, syscallMade := false } := by
  obtain ⟨f, hinit, hoom, hacc, hr, hw⟩ :=
    initIoVec_failure_no_syscall ⟨true, none, some [0], some [4]⟩ 1 ⟨5, 9⟩
      (Or.inr (Or.inl rfl))
  rw [hacc rfl] at hr
  exact hr

/-- Claim C7 counterexample: a successful build from bufferBases =
[2147483647] and offsets = [1] yields an entry whose pointer is
-2147483648, not the sum 2147483647 + 1 = 2147483648: the claim that the
pointer equals bufferBases[i] + offsets[i] fails on overflow. -/
theorem initIoVec_pointer_counterexample :
    initIoVec ⟨true, some [2147483647], some [1], some [0]⟩ 1 =
      .ok [{ iov_base := -2147483648, iov_len := 0 }] ∧
    ((-2147483648 : Int) ≠ 2147483647 + 1) := ⟨rfl, by decide⟩

/-- Claim C7 (amended): every successful build with count = size and input
arrays of at least size elements yields exactly size entries; entry i has
length lengths[i] and pointer equal to the 32-bit wrapped sum of
bufferBases[i] and offsets[i] — hence equal to bufferBases[i] + offsets[i]
whenever that sum lies in the signed 32-bit range. -/
theorem initIoVec_success_shape (bufs offs lens : List Int) (size : Nat)
    (vs : List IoVec)
    (hok : initIoVec ⟨true, some bufs, some offs, some lens⟩ size = .ok vs)
    (hb : size ≤ bufs.length) (ho : size ≤ offs.length)
    (hl : size ≤ lens.length) :
    vs.length = size ∧
    ∀ i : Nat, ∀ hiv : i < vs.length,
      vs[i].iov_len = lens.getD i 0 ∧
      vs[i].iov_base = toInt32 (bufs.getD i 0 + offs.getD i 0) ∧
      (-(2 ^ 31) ≤ bufs.getD i 0 + offs.getD i 0 →
        bufs.getD i 0 + offs.getD i 0 < 2 ^ 31 →
        vs[i].iov_base = bufs.getD i 0 + offs.getD i 0) := by
  have hv := initIoVec_ok_eq bufs offs lens size vs hok
  subst hv
  refine ⟨by simp, ?_⟩
  intro i hiv
  refine ⟨by simp, by simp, ?_⟩
  intro h1 h2
  simp only [List.getElem_map, List.getElem_range]
  exact toInt32_eq_self _ h1 h2

theorem initIoVec_success_shape_witness :
    (⟨15, 7⟩ : IoVec).iov_base = 10 + 5 := by
  have h := initIoVec_success_shape [10] [5] [7] 1 [⟨15, 7⟩] rfl
    (by norm_num) (by norm_num) (by norm_num)
  have h2 := (h.2 0 (by norm_num)).2.2 (by norm_num) (by norm_num)
  simpa using h2

/-- Claim C8: when the jlong offset lies in the signed 32-bit range (the
bound the managed caller enforces) and off_t is at least 32 bits wide, the
conversion to off_t is value-preserving: sendfile receives exactly the
caller's offset. -/
theorem transfer_offset_preserved (offW : Nat) (socket offset cnt : Int)
    (sys : SyscallEnv) (hw : 32 ≤ offW) (hsock : socket ≠ -1)
    (hlo : -(2 ^ 31) ≤ offset) (hhi : offset < 2 ^ 31) :
    (OSFileSystem_transfer offW socket offset cnt sys).offPassed = some offset := by
  have hwp : toIntW offW offset = offset := by
    unfold toIntW
    have h1 : (2 : Int) ^ 31 ≤ 2 ^ (offW - 1) := by
      apply pow_le_pow_right₀
      · norm_num
      · omega
    have h2 : (2 : Int) ^ offW = 2 ^ (offW - 1) * 2 := by
      rw [← pow_succ]
      congr 1
      omega
    have hnn : (0 : Int) ≤ offset + 2 ^ (offW - 1) := by omega
    have hlt : offset + 2 ^ (offW - 1) < 2 ^ offW := by omega
    rw [Int.emod_eq_of_lt hnn hlt]
    omega
  simp [OSFileSystem_transfer, hsock, hwp]

theorem transfer_offset_preserved_witness :
    (OSFileSystem_transfer 64 5 7 3 ⟨0, 0⟩).offPassed = some 7 :=
  transfer_offset_preserved 64 5 7 3 ⟨0, 0⟩ (by norm_num) (by norm_num)
    (by norm_num) (by norm_num)

/-- Claim C9: the base pointer of every constructed entry is the 32-bit
two's-complement wrap of bufferBases[i] + offsets[i]; at the overflowing
sum 2147483647 + 1 the wrap yields -2147483648, which differs from the
widened mathematical sum. -/
theorem initIoVec_base_wrapped (bufs offs lens : List Int) (size : Nat)
    (vs : List IoVec)
    (hok : initIoVec ⟨true, some bufs, some offs, some lens⟩ size = .ok vs)
    (i : Nat) (hiv : i < vs.length) :
    vs[i].iov_base = toInt32 (bufs.getD i 0 + offs.getD i 0) ∧
    toInt32 (2147483647 + 1) = -2147483648 ∧
    ((2147483647 + 1 : Int) ≠ -2147483648) := by
  have hv := initIoVec_ok_eq bufs offs lens size vs hok
  subst hv
  exact ⟨by simp, by decide, by decide⟩

theorem initIoVec_base_wrapped_witness :
    (⟨-2147483648, 0⟩ : IoVec).iov_base = toInt32 (2147483647 + 1) := by
  have h := initIoVec_base_wrapped [2147483647] [1] [0] 1
    [⟨-2147483648, 0⟩] (by rfl) 0 (by norm_num)
  simpa using h.1

/-- Claim C10: readv maps every zero syscall result to -1 unconditionally —
for every size, every array content, hence also a zero total requested
length — so the return value cannot distinguish a zero-length read from
end-of-stream. -/
theorem readv_zero_unconditional (e : InitEnv) (size : Nat) (sys : SyscallEnv)
    (vs : List IoVec) (hok : initIoVec e size = .ok vs) (h0 : sys.result = 0) :
    (OSFileSystem_readv e size sys).ret = -1 := by
  simp [OSFileSystem_readv, hok, h0]

theorem readv_zero_unconditional_witness :
    (OSFileSystem_readv ⟨true, some [], some [], some []⟩ 0 ⟨0, 0⟩).ret = -1 :=
  readv_zero_unconditional ⟨true, some [], some [], some []⟩ 0 ⟨0, 0⟩ [] rfl rfl
